import Mathlib

/-!
Verification of the scheduling and lifecycle core of the peloton workload
orchestrator against its natural-language specification.

The Go source is shallowly embedded: pure functions become Lean functions,
stateful tree operations become functions from tree states to tree states,
`float64` quantities are modelled as exact rationals, `uint32` arithmetic is
modelled as natural numbers with explicit wrap-around where overflow matters,
and fallible operations return `Except`/`Option` values.
-/

set_option maxRecDepth 4000

namespace Peloton

/-! ## Scalar resource algebra (src/resmgr/scalar/resources.go) -/

/-- Modelled from the spec: `util.ResourceEpsilon`, the resource comparison
tolerance 1e-9 (the `util` package is not under src/).  Written with `mkRat`
so that concrete comparisons evaluate by kernel reduction; the next lemma
identifies it with 1/10^9. -/
def ResourceEpsilon : ℚ := mkRat 1 1000000000

theorem resourceEpsilon_eq : ResourceEpsilon = 1 / 1000000000 := by
  unfold ResourceEpsilon
  rw [Rat.mkRat_eq_div]
  norm_num

/-- `math.Abs`, over the rational model of `float64`. -/
def absQ (q : ℚ) : ℚ := if q < 0 then -q else q

/-- `scalar.Resources`: the four-dimensional resource vector
(resources.go, lines 126-131). -/
@[ext]
structure Resources where
  CPU : ℚ
  MEMORY : ℚ
  DISK : ℚ
  GPU : ℚ
deriving DecidableEq, Repr

/-- `scalar.ZeroResource` (resources.go, lines 117-123). -/
def ZeroResource : Resources := ⟨0, 0, 0, 0⟩

/-- `Resources.Add` (resources.go, lines 182-190). -/
def Resources.Add (r other : Resources) : Resources :=
  { CPU := r.CPU + other.CPU
    MEMORY := r.MEMORY + other.MEMORY
    DISK := r.DISK + other.DISK
    GPU := r.GPU + other.GPU }

/-- package-level `lessThanOrEqual` (resources.go, lines 192-198): true when
the difference is within epsilon, otherwise compares the sign of `f1 - f2`. -/
def lessThanOrEqual (f1 f2 : ℚ) : Bool :=
  let v := f1 - f2
  if absQ v < ResourceEpsilon then true
  else decide (v < 0)

/-- `Resources.LessThanOrEqual` (resources.go, lines 200-207). -/
def Resources.LessThanOrEqual (r other : Resources) : Bool :=
  lessThanOrEqual r.CPU other.CPU &&
  lessThanOrEqual r.MEMORY other.MEMORY &&
  lessThanOrEqual r.DISK other.DISK &&
  lessThanOrEqual r.GPU other.GPU

/-- package-level `equal` (resources.go, lines 209-211): exact `float64`
equality, with no epsilon tolerance. -/
def equal (f1 f2 : ℚ) : Bool := decide (f1 = f2)

/-- `Resources.Equal` (resources.go, lines 213-220). -/
def Resources.Equal (r other : Resources) : Bool :=
  equal r.CPU other.CPU &&
  equal r.MEMORY other.MEMORY &&
  equal r.DISK other.DISK &&
  equal r.GPU other.GPU

/-- `Resources.Subtract` (resources.go, lines 250-305): per dimension, the
result is 0 when the subtrahend is larger, and differences below
`ResourceEpsilon` are clamped to 0. -/
def Resources.Subtract (r other : Resources) : Resources :=
  { CPU :=
      if r.CPU < other.CPU then 0
      else if r.CPU - other.CPU < ResourceEpsilon then 0
      else r.CPU - other.CPU
    GPU :=
      if r.GPU < other.GPU then 0
      else if r.GPU - other.GPU < ResourceEpsilon then 0
      else r.GPU - other.GPU
    MEMORY :=
      if r.MEMORY < other.MEMORY then 0
      else if r.MEMORY - other.MEMORY < ResourceEpsilon then 0
      else r.MEMORY - other.MEMORY
    DISK :=
      if r.DISK < other.DISK then 0
      else if r.DISK - other.DISK < ResourceEpsilon then 0
      else r.DISK - other.DISK }

/-- `scalar.AllocationType` (resources.go, lines 17-31). -/
inductive AllocationType
  | NonPreemptibleAllocation
  | PreemptibleAllocation
  | ControllerAllocation
  | TotalAllocation
deriving DecidableEq, Repr

/-- `scalar.Allocation` (resources.go, lines 33-36): the Go map always holds
exactly the four `AllocationType` keys (`initializeZeroAlloc` populates all
of them), so it is modelled as a total function. -/
structure Allocation where
  Value : AllocationType → Resources

/-- `initializeZeroAlloc` (resources.go, lines 66-78). -/
def initialZeroAlloc : Allocation := ⟨fun _ => ZeroResource⟩

/-- `Allocation.Add` (resources.go, lines 48-55): pointwise addition over the
four allocation kinds. -/
def Allocation.Add (a other : Allocation) : Allocation :=
  ⟨fun t => (a.Value t).Add (other.Value t)⟩

/-- `resmgr.TaskType`: only the controller/non-controller distinction matters
to the allocation accounting. -/
inductive TaskType
  | BATCH
  | STATELESS
  | DAEMON
  | CONTROLLER
deriving DecidableEq, Repr

/-- `task.ResourceConfig`: the per-task resource limits. -/
structure ResourceConfig where
  cpuLimit : ℚ
  memLimitMb : ℚ
  diskLimitMb : ℚ
  gpuLimit : ℚ
deriving DecidableEq, Repr

/-- `resmgr.Task`, restricted to the fields read by the scalar package. -/
structure RMTask where
  resource : ResourceConfig
  preemptible : Bool
  taskType : TaskType
deriving DecidableEq, Repr

/-- `ConvertToResmgrResource` (resources.go, lines 222-230). -/
def ConvertToResmgrResource (resource : ResourceConfig) : Resources :=
  { CPU := resource.cpuLimit
    DISK := resource.diskLimitMb
    GPU := resource.gpuLimit
    MEMORY := resource.memLimitMb }

/-- `GetTaskAllocation` (resources.go, lines 91-115): the task resource is
recorded under exactly one of the preemptible/non-preemptible kinds, under
the controller kind when the task type is CONTROLLER, and always under the
total kind. -/
def GetTaskAllocation (rmTask : RMTask) : Allocation :=
  let taskResource := ConvertToResmgrResource rmTask.resource
  ⟨fun t =>
    match t with
    | .PreemptibleAllocation =>
        if rmTask.preemptible then taskResource else ZeroResource
    | .NonPreemptibleAllocation =>
        if rmTask.preemptible then ZeroResource else taskResource
    | .ControllerAllocation =>
        if rmTask.taskType = .CONTROLLER then taskResource else ZeroResource
    | .TotalAllocation => taskResource⟩

/-- `GetGangAllocation` (resources.go, lines 80-89): a gang is the ordered
list of its tasks. -/
def GetGangAllocation (tasks : List RMTask) : Allocation :=
  tasks.foldl (fun acc t => acc.Add (GetTaskAllocation t)) initialZeroAlloc

/-- Per-dimension nonnegativity of a resource vector. -/
def Resources.NonNeg (r : Resources) : Prop :=
  0 ≤ r.CPU ∧ 0 ≤ r.MEMORY ∧ 0 ≤ r.DISK ∧ 0 ≤ r.GPU

instance (r : Resources) : Decidable r.NonNeg := by
  unfold Resources.NonNeg; infer_instance

/-- Exact per-dimension comparison of resource vectors. -/
def Resources.LeDim (r other : Resources) : Prop :=
  r.CPU ≤ other.CPU ∧ r.MEMORY ≤ other.MEMORY ∧
  r.DISK ≤ other.DISK ∧ r.GPU ≤ other.GPU

instance (r other : Resources) : Decidable (r.LeDim other) := by
  unfold Resources.LeDim; infer_instance

theorem absQ_sub_comm (a b : ℚ) : absQ (a - b) = absQ (b - a) := by
  unfold absQ
  rcases lt_trichotomy (a - b) 0 with h | h | h <;> split_ifs <;> linarith

theorem epsilon_pos : (0 : ℚ) < ResourceEpsilon := by decide

theorem allocation_add_value (a b : Allocation) (t : AllocationType) :
    (a.Add b).Value t = (a.Value t).Add (b.Value t) := rfl

/-- The allocation invariant of the spec: the total equals preemptible plus
non-preemptible, and the controller dimension never exceeds the total, in
each of the four resource dimensions. -/
def AllocInv (a : Allocation) : Prop :=
  a.Value .TotalAllocation =
    (a.Value .PreemptibleAllocation).Add (a.Value .NonPreemptibleAllocation) ∧
  (a.Value .ControllerAllocation).LeDim (a.Value .TotalAllocation)

theorem Resources.add_zero_right (r : Resources) : r.Add ZeroResource = r := by
  ext <;> simp [Resources.Add, ZeroResource]

theorem Resources.add_zero_left (r : Resources) : ZeroResource.Add r = r := by
  ext <;> simp [Resources.Add, ZeroResource]

theorem Resources.leDim_refl (r : Resources) : r.LeDim r := by
  unfold Resources.LeDim; exact ⟨le_refl _, le_refl _, le_refl _, le_refl _⟩

theorem Resources.leDim_add (r s u v : Resources) (h1 : r.LeDim u) (h2 : s.LeDim v) :
    (r.Add s).LeDim (u.Add v) := by
  obtain ⟨a1, a2, a3, a4⟩ := h1
  obtain ⟨b1, b2, b3, b4⟩ := h2
  exact ⟨add_le_add a1 b1, add_le_add a2 b2, add_le_add a3 b3, add_le_add a4 b4⟩

theorem allocInv_zero : AllocInv initialZeroAlloc := by
  constructor
  · simp [initialZeroAlloc, Resources.add_zero_right]
  · exact Resources.leDim_refl _

theorem allocInv_add (a b : Allocation) (ha : AllocInv a) (hb : AllocInv b) :
    AllocInv (a.Add b) := by
  obtain ⟨ha1, ha2⟩ := ha
  obtain ⟨hb1, hb2⟩ := hb
  constructor
  · simp only [allocation_add_value]
    rw [ha1, hb1]
    ext <;> simp [Resources.Add] <;> ring
  · simp only [allocation_add_value]
    exact Resources.leDim_add _ _ _ _ ha2 hb2

theorem allocInv_task (t : RMTask)
    (h : (ConvertToResmgrResource t.resource).NonNeg) :
    AllocInv (GetTaskAllocation t) := by
  obtain ⟨h1, h2, h3, h4⟩ := h
  constructor
  · show ConvertToResmgrResource t.resource = _
    by_cases hp : t.preemptible <;>
      simp [GetTaskAllocation, hp, Resources.add_zero_right, Resources.add_zero_left]
  · by_cases hc : t.taskType = .CONTROLLER
    · simp only [GetTaskAllocation, hc, if_true]
      exact Resources.leDim_refl _
    · simp only [GetTaskAllocation, hc, if_false]
      exact ⟨h1, h2, h3, h4⟩

theorem allocInv_foldl (ts : List RMTask) :
    ∀ acc : Allocation, AllocInv acc →
      (∀ t ∈ ts, (ConvertToResmgrResource t.resource).NonNeg) →
      AllocInv (ts.foldl (fun a t => a.Add (GetTaskAllocation t)) acc) := by
  induction ts with
  | nil => intro acc hacc _; simpa using hacc
  | cons t ts ih =>
    intro acc hacc h
    simp only [List.foldl_cons]
    refine ih _ (allocInv_add _ _ hacc (allocInv_task t (h t ?_))) (fun x hx => h x ?_)
    · simp
    · simp [hx]

/-- C6 (amended): for every task all of whose resource dimensions are
nonnegative, and every gang all of whose tasks have nonnegative resource
dimensions, the allocations produced by `GetTaskAllocation` and
`GetGangAllocation` satisfy `Total = Preemptible + NonPreemptible` and
`Controller ≤ Total` in each of the four dimensions.  The nonnegativity
hypothesis is necessary: see the counterexample with a negative CPU limit. -/
theorem getTaskAllocation_getGangAllocation_invariants
    (tasks : List RMTask) (t : RMTask)
    (hg : ∀ x ∈ tasks, (ConvertToResmgrResource x.resource).NonNeg)
    (ht : (ConvertToResmgrResource t.resource).NonNeg) :
    AllocInv (GetGangAllocation tasks) ∧ AllocInv (GetTaskAllocation t) :=
  ⟨allocInv_foldl tasks initialZeroAlloc allocInv_zero hg, allocInv_task t ht⟩

/-- A preemptible non-controller task with a negative CPU limit, as the
`float64` field of `task.ResourceConfig` permits. -/
def negTask : RMTask := ⟨⟨-1, 0, 0, 0⟩, true, .BATCH⟩

/-- C6 counterexample: for the task with CPU limit -1, the controller
allocation (zero) does not lie below the total allocation (-1 CPU), neither
under exact per-dimension comparison nor under the code's epsilon-tolerant
`LessThanOrEqual`; the claim quantifies over every task and so fails here. -/
theorem getTaskAllocation_controller_not_le_total :
    ¬ ((GetTaskAllocation negTask).Value .ControllerAllocation).LeDim
        ((GetTaskAllocation negTask).Value .TotalAllocation) ∧
    ((GetTaskAllocation negTask).Value .ControllerAllocation).LessThanOrEqual
        ((GetTaskAllocation negTask).Value .TotalAllocation) = false := by
  have hctrl : (GetTaskAllocation negTask).Value .ControllerAllocation = ZeroResource := by
    simp [GetTaskAllocation, negTask]
  have htot : (GetTaskAllocation negTask).Value .TotalAllocation =
      ConvertToResmgrResource negTask.resource := rfl
  have hlte : lessThanOrEqual 0 (-1 : ℚ) = false := by
    simp only [lessThanOrEqual]
    norm_num [absQ, resourceEpsilon_eq]
  constructor
  · rw [hctrl, htot]
    intro h
    have := h.1
    simp [ConvertToResmgrResource, negTask, ZeroResource] at this
    linarith
  · rw [hctrl, htot]
    simp only [Resources.LessThanOrEqual, ZeroResource, ConvertToResmgrResource, negTask,
      hlte, Bool.false_and]

/-- C6 witness gang: two tasks with nonnegative resources. -/
def gangW : List RMTask :=
  [⟨⟨1, 2, 3, 0⟩, true, .BATCH⟩, ⟨⟨2, 1, 0, 1⟩, false, .CONTROLLER⟩]

/-- Witness for the amended C6 theorem at a concrete gang and task. -/
theorem getTaskAllocation_getGangAllocation_invariants_witness :
    AllocInv (GetGangAllocation gangW) ∧
    AllocInv (GetTaskAllocation ⟨⟨5, 0, 0, 0⟩, false, .CONTROLLER⟩) :=
  getTaskAllocation_getGangAllocation_invariants gangW ⟨⟨5, 0, 0, 0⟩, false, .CONTROLLER⟩
    (by decide) (by decide)

/-- C5 counterexample input: a vector differing from zero by 5e-10 in the
CPU dimension only, a difference strictly below the 1e-9 epsilon. -/
def rEps : Resources := ⟨mkRat 1 2000000000, 0, 0, 0⟩

/-- C5 counterexample: the two vectors differ by less than `ResourceEpsilon`
in every one of the four dimensions, yet `Resources.Equal` returns false:
`equal` compares `float64` values exactly and has no epsilon tolerance. -/
theorem resources_equal_not_epsilon_tolerant :
    (absQ (ZeroResource.CPU - rEps.CPU) < ResourceEpsilon ∧
     absQ (ZeroResource.MEMORY - rEps.MEMORY) < ResourceEpsilon ∧
     absQ (ZeroResource.DISK - rEps.DISK) < ResourceEpsilon ∧
     absQ (ZeroResource.GPU - rEps.GPU) < ResourceEpsilon) ∧
    Resources.Equal ZeroResource rEps = false := by
  have heq : equal ZeroResource.CPU rEps.CPU = false := by
    simp only [equal, ZeroResource, rEps, decide_eq_false_iff_not]
    rw [Rat.mkRat_eq_div]
    norm_num
  constructor
  · refine ⟨?_, ?_, ?_, ?_⟩ <;>
      · simp only [ZeroResource, rEps, absQ, resourceEpsilon_eq, Rat.mkRat_eq_div]
        norm_num
  · simp only [Resources.Equal, heq, Bool.false_and]

/-- C5 (amended): `lessThanOrEqual` — and hence `Resources.LessThanOrEqual`
in every dimension — treats two values whose difference is smaller in
absolute value than `ResourceEpsilon` as equal, while `Resources.Equal`
holds exactly when the two vectors are equal, with no epsilon tolerance. -/
theorem lessThanOrEqual_epsilon_tolerant_equal_exact :
    (∀ f1 f2 : ℚ, absQ (f1 - f2) < ResourceEpsilon → lessThanOrEqual f1 f2 = true) ∧
    (∀ r s : Resources,
       absQ (r.CPU - s.CPU) < ResourceEpsilon →
       absQ (r.MEMORY - s.MEMORY) < ResourceEpsilon →
       absQ (r.DISK - s.DISK) < ResourceEpsilon →
       absQ (r.GPU - s.GPU) < ResourceEpsilon →
       r.LessThanOrEqual s = true ∧ s.LessThanOrEqual r = true) ∧
    (∀ r s : Resources, r.Equal s = true ↔ r = s) := by
  have hlte : ∀ f1 f2 : ℚ, absQ (f1 - f2) < ResourceEpsilon → lessThanOrEqual f1 f2 = true := by
    intro f1 f2 h
    simp [lessThanOrEqual, h]
  refine ⟨hlte, ?_, ?_⟩
  · intro r s h1 h2 h3 h4
    constructor
    · simp only [Resources.LessThanOrEqual, Bool.and_eq_true]
      exact ⟨⟨⟨hlte _ _ h1, hlte _ _ h2⟩, hlte _ _ h3⟩, hlte _ _ h4⟩
    · simp only [Resources.LessThanOrEqual, Bool.and_eq_true]
      rw [absQ_sub_comm] at h1 h2 h3 h4
      exact ⟨⟨⟨hlte _ _ h1, hlte _ _ h2⟩, hlte _ _ h3⟩, hlte _ _ h4⟩
  · intro r s
    simp only [Resources.Equal, equal, Bool.and_eq_true, decide_eq_true_eq]
    constructor
    · rintro ⟨⟨⟨e1, e2⟩, e3⟩, e4⟩
      ext <;> assumption
    · rintro rfl
      exact ⟨⟨⟨rfl, rfl⟩, rfl⟩, rfl⟩

/-- Witness for the amended C5 theorem at concrete inputs. -/
theorem lessThanOrEqual_epsilon_tolerant_equal_exact_witness :
    lessThanOrEqual (3 : ℚ) (3 + mkRat 1 2000000000) = true ∧
    (Resources.Equal ⟨1, 2, 3, 4⟩ ⟨1, 2, 3, 4⟩ = true ↔
      (⟨1, 2, 3, 4⟩ : Resources) = ⟨1, 2, 3, 4⟩) :=
  ⟨lessThanOrEqual_epsilon_tolerant_equal_exact.1 3 (3 + mkRat 1 2000000000)
      (by
        simp only [absQ, resourceEpsilon_eq, Rat.mkRat_eq_div]
        norm_num),
   lessThanOrEqual_epsilon_tolerant_equal_exact.2.2 ⟨1, 2, 3, 4⟩ ⟨1, 2, 3, 4⟩⟩

theorem subtractDim_characterization (a b : ℚ) :
    (if a < b then (0 : ℚ) else if a - b < ResourceEpsilon then 0 else a - b) =
      if ResourceEpsilon ≤ a - b then a - b else 0 := by
  have heps := epsilon_pos
  split_ifs <;> first | rfl | linarith

/-- C8: `Resources.Subtract` saturates at zero in every dimension — each
result dimension equals `r.d - s.d` when that difference is at least
`ResourceEpsilon`, and is exactly 0 otherwise (in particular whenever
`s.d > r.d`); no result dimension is ever negative. -/
theorem resources_subtract_saturates (r s : Resources) :
    ((r.Subtract s).CPU =
       if ResourceEpsilon ≤ r.CPU - s.CPU then r.CPU - s.CPU else 0) ∧
    ((r.Subtract s).MEMORY =
       if ResourceEpsilon ≤ r.MEMORY - s.MEMORY then r.MEMORY - s.MEMORY else 0) ∧
    ((r.Subtract s).DISK =
       if ResourceEpsilon ≤ r.DISK - s.DISK then r.DISK - s.DISK else 0) ∧
    ((r.Subtract s).GPU =
       if ResourceEpsilon ≤ r.GPU - s.GPU then r.GPU - s.GPU else 0) ∧
    (0 ≤ (r.Subtract s).CPU ∧ 0 ≤ (r.Subtract s).MEMORY ∧
     0 ≤ (r.Subtract s).DISK ∧ 0 ≤ (r.Subtract s).GPU) := by
  have heps := epsilon_pos
  have hc := subtractDim_characterization r.CPU s.CPU
  have hm := subtractDim_characterization r.MEMORY s.MEMORY
  have hd := subtractDim_characterization r.DISK s.DISK
  have hg := subtractDim_characterization r.GPU s.GPU
  simp only [Resources.Subtract] at *
  refine ⟨hc, hm, hd, hg, ?_, ?_, ?_, ?_⟩ <;>
    · rw [subtractDim_characterization]
      split_ifs <;> linarith

/-! ## Recovery task batching (src/common/recovery/recovery.go) -/

/-- The `uint32` modulus, for the wrap-around of Go unsigned arithmetic. -/
def U32MOD : Nat := 4294967296

/-- Modelled from the spec: `util.Min` over `uint32` (the `util` package is
not under src/): the smaller of two machine words. -/
def utilMin (a b : Nat) : Nat := min a b

/-- `recovery.requeueTaskBatchSize` (recovery.go, line 21). -/
def requeueTaskBatchSize : Nat := 1000

/-- The SLA portion of a job config read by recovery:
`config.GetSLA().GetMinimumRunningInstances()`. -/
structure SlaConfig where
  minimumRunningInstances : Nat
deriving DecidableEq, Repr

/-- `job.JobConfig`, restricted to the fields recovery reads. -/
structure JobConfig where
  instanceCount : Nat
  sla : SlaConfig
deriving DecidableEq, Repr

/-- `recovery.TasksBatch` (recovery.go, lines 34-37): the half-open range
`[From, To)` of task instance indices. -/
structure TasksBatch where
  From : Nat
  To : Nat
deriving DecidableEq, Repr

/-- `createTaskBatches` (recovery.go, lines 49-78), with `uint32` subtraction
and multiplication wrapping modulo 2^32.  When `minInstances > 1` the Go code
appends the gang batch `[0, minInstances)`, subtracts `minInstances` from
`numSingleInstances`, and then — this is the decisive detail — starts the
single-instance loop counter `i` at `initialSingleInstance = minInstances`
instead of offsetting the computed ranges by it. -/
def createTaskBatches (config : JobConfig) : List TasksBatch :=
  let minInstances := config.sla.minimumRunningInstances
  let state :=
    if minInstances > 1 then
      ([TasksBatch.mk 0 minInstances],
       (config.instanceCount + U32MOD - minInstances) % U32MOD,
       minInstances)
    else ([], config.instanceCount, 0)
  let batches := state.1
  let numSingleInstances := state.2.1
  let initialSingleInstance := state.2.2
  if numSingleInstances > 0 then
    let rangevar := numSingleInstances / requeueTaskBatchSize
    batches ++
      (List.range' initialSingleInstance (rangevar + 1 - initialSingleInstance)).map
        (fun i =>
          TasksBatch.mk ((i * requeueTaskBatchSize) % U32MOD)
            (utilMin (((i + 1) * requeueTaskBatchSize) % U32MOD) numSingleInstances))
  else batches

/-- Whether instance index `n` falls inside some batch of `bs`. -/
def coveredBy (bs : List TasksBatch) (n : Nat) : Bool :=
  bs.any (fun b => decide (b.From ≤ n) && decide (n < b.To))

/-- The failing input for C1: a job with 10 instances and SLA
minimum-running-instances 3. -/
def jobConfigBug : JobConfig := ⟨10, ⟨3⟩⟩

/-- C1: evaluating `createTaskBatches` at a job config with instance count 10
and minimum-running-instances 3 yields only the gang batch `[0, 3)` — the
single-instance loop runs from `i = 3` to `rangevar = 0` and so never
executes — leaving instances 3 through 9 (witnessed by index 5) in no batch,
contrary to the claim that every index in `[0, N)` is covered exactly once. -/
theorem createTaskBatches_skips_instances :
    createTaskBatches jobConfigBug = [⟨0, 3⟩] ∧
    coveredBy (createTaskBatches jobConfigBug) 5 = false ∧
    coveredBy (createTaskBatches jobConfigBug) 9 = false := by
  refine ⟨?_, ?_, ?_⟩ <;> decide

/-! ## Job recovery error handling (src/common/recovery/recovery.go) -/

/-- `job.JobState`, restricted to the states the recovery path inspects. -/
inductive JobState
  | INITIALIZED
  | PENDING
  | RUNNING
  | SUCCEEDED
  | FAILED
  | KILLED
  | DELETED
deriving DecidableEq, Repr

/-- Modelled from the spec: `util.IsPelotonJobStateTerminal` (the `util`
package is not under src/) — a job state is terminal when the job has
reached one of the final states. -/
def IsPelotonJobStateTerminal (s : JobState) : Bool :=
  match s with
  | .SUCCEEDED | .FAILED | .KILLED | .DELETED => true
  | _ => false

/-- The storage error kinds that matter to recovery: `NotFound` versus any
other error. -/
inductive StoreErr
  | notFound
  | connectionErr
deriving DecidableEq, Repr

/-- `job.RuntimeInfo`, restricted to the fields recovery reads. -/
structure JobRuntime where
  state : JobState
  goalState : JobState
  updateID : String
deriving DecidableEq, Repr

/-- `storage.JobStore`, restricted to the two reads performed by
`recoverJobsBatch`; each read either returns the row or fails with a
storage error. -/
structure JobStore where
  GetJobRuntime : String → Except StoreErr JobRuntime
  GetJobConfig : String → Except StoreErr JobConfig

/-- The terminal-and-no-update skip condition of recovery.go lines 164-168:
`IsPelotonJobStateTerminal(state) && IsPelotonJobStateTerminal(goalState)
&& len(updateID) == 0`. -/
def isTerminalNoUpdate (rt : JobRuntime) : Bool :=
  IsPelotonJobStateTerminal rt.state && IsPelotonJobStateTerminal rt.goalState &&
    decide (rt.updateID.length = 0)

/-- `recoverJobsBatch` (recovery.go, lines 135-188).  The result pairs the
ids of the jobs recovered in order with the error sent on `errChan` (`none`
when the loop ran to completion).  `f` abstracts `recoverJob`, i.e. the
per-job fan-out over task batches; a `GetJobRuntime` failure — of any kind —
takes the `continue` branch, while a `GetJobConfig` or `recoverJob` failure
sends the error and returns. -/
def recoverJobsBatch (store : JobStore)
    (f : String → JobConfig → JobRuntime → Except StoreErr Unit) :
    List String → List String × Option StoreErr
  | [] => ([], none)
  | jobID :: rest =>
    match store.GetJobRuntime jobID with
    | .error _ => recoverJobsBatch store f rest
    | .ok jobRuntime =>
      if isTerminalNoUpdate jobRuntime then recoverJobsBatch store f rest
      else
        match store.GetJobConfig jobID with
        | .error e => ([], some e)
        | .ok jobConfig =>
          match f jobID jobConfig jobRuntime with
          | .error e => ([], some e)
          | .ok _ =>
            let r := recoverJobsBatch store f rest
            (jobID :: r.1, r.2)

/-- A non-terminal runtime row. -/
def runtimeOK : JobRuntime := ⟨.RUNNING, .SUCCEEDED, ""⟩

/-- A store in which the runtime read of job `j1` fails with an error that
is not `NotFound`, while every other read succeeds. -/
def storeCex : JobStore :=
  { GetJobRuntime := fun j => if j = "j1" then .error .connectionErr else .ok runtimeOK
    GetJobConfig := fun _ => .ok ⟨1, ⟨0⟩⟩ }

/-- The trivial per-job recovery callback. -/
def recoverNoop : String → JobConfig → JobRuntime → Except StoreErr Unit :=
  fun _ _ _ => .ok ()

/-- C3 counterexample: job `j1` fails its `GetJobRuntime` read with an error
other than `NotFound`, yet recovery does not abort — it skips `j1`, recovers
the remaining job `j2`, and reports no error, contrary to the claim that any
non-`NotFound` runtime-read error aborts the recovery. -/
theorem recoverJobsBatch_skips_every_runtime_error :
    storeCex.GetJobRuntime "j1" = .error .connectionErr ∧
    StoreErr.connectionErr ≠ StoreErr.notFound ∧
    recoverJobsBatch storeCex recoverNoop ["j1", "j2"] = (["j2"], none) := by
  refine ⟨rfl, by decide, by decide⟩

/-- C3 (amended): during recovery of a batch of jobs, a job whose
`GetJobRuntime` read fails with any error — `NotFound` or otherwise — is
skipped and the remaining jobs are still processed, while an error on the
`GetJobConfig` read (or from recovering the job itself) aborts the batch and
is reported to the caller. -/
theorem recoverJobsBatch_error_policy (store : JobStore)
    (f : String → JobConfig → JobRuntime → Except StoreErr Unit)
    (jobID : String) (rest : List String) :
    (∀ e, store.GetJobRuntime jobID = .error e →
       recoverJobsBatch store f (jobID :: rest) = recoverJobsBatch store f rest) ∧
    (∀ rt e, store.GetJobRuntime jobID = .ok rt →
       isTerminalNoUpdate rt = false →
       store.GetJobConfig jobID = .error e →
       recoverJobsBatch store f (jobID :: rest) = ([], some e)) := by
  constructor
  · intro e he
    simp [recoverJobsBatch, he]
  · intro rt e hrt hterm hcfg
    simp [recoverJobsBatch, hrt, hterm, hcfg]

/-- A store whose config reads always fail. -/
def storeCfgErr : JobStore :=
  { GetJobRuntime := fun _ => .ok runtimeOK
    GetJobConfig := fun _ => .error .notFound }

/-- Witness for the amended C3 theorem at concrete stores. -/
theorem recoverJobsBatch_error_policy_witness :
    recoverJobsBatch storeCex recoverNoop ["j1", "j2"] =
      recoverJobsBatch storeCex recoverNoop ["j2"] ∧
    recoverJobsBatch storeCfgErr recoverNoop ["j3"] = ([], some .notFound) :=
  ⟨(recoverJobsBatch_error_policy storeCex recoverNoop "j1" ["j2"]).1
      .connectionErr rfl,
   (recoverJobsBatch_error_policy storeCfgErr recoverNoop "j3" []).2
      runtimeOK .notFound rfl (by decide) rfl⟩

/-! ## v1 lifecycle manager Kill (src/unnamed/part_000) -/

/-- The observable outcomes of `v1LifecycleMgr.Kill`. -/
inductive KillResult
  | internalLocked
  | resourceExhausted
  | rpcError
  | killed
deriving DecidableEq, Repr

/-- `v1LifecycleMgr.Kill` (part_000, lines 121-154).  The process-level
kill-lock (`lockState.hasKillLock`, whose definition is outside src/) is
modelled from the spec as a boolean input that can be toggled externally to
drain; the rate limiter is `none` when absent or `some allow` with the
outcome of `Allow()`; the host-manager `KillPods` RPC outcome is an input.
The second component of the result records whether a `KillPods` request was
sent to the host-manager. -/
def v1LifecycleMgrKill (hasKillLock : Bool) (rateLimiter : Option Bool)
    (killPodsRPC : Except Unit Unit) : KillResult × Bool :=
  if hasKillLock then (.internalLocked, false)
  else if rateLimiter = some false then (.resourceExhausted, false)
  else
    match killPodsRPC with
    | .error _ => (.rpcError, true)
    | .ok _ => (.killed, true)

/-- C9 counterexample: with the kill-lock not held but the rate limiter
denying, `Kill` returns `ResourceExhausted` and sends no `KillPods` request,
contrary to the claim that the request is issued whenever the lock is not
held. -/
theorem kill_not_issued_when_rate_limited :
    (v1LifecycleMgrKill false (some false) (.ok ())).2 = false ∧
    (v1LifecycleMgrKill false (some false) (.ok ())).1 = .resourceExhausted := by
  exact ⟨rfl, rfl⟩

/-- C9 (amended): when the kill-lock is held, `Kill` returns an Internal
error and sends no `KillPods` request; when the lock is not held and the
rate limiter (if present) permits, the `KillPods` request is issued. -/
theorem kill_lock_and_rate_limit (rateLimiter : Option Bool)
    (killPodsRPC : Except Unit Unit) :
    v1LifecycleMgrKill true rateLimiter killPodsRPC = (.internalLocked, false) ∧
    (rateLimiter ≠ some false →
      (v1LifecycleMgrKill false rateLimiter killPodsRPC).2 = true) := by
  constructor
  · rfl
  · intro h
    cases killPodsRPC <;> simp [v1LifecycleMgrKill, h]

/-- Witness for the amended C9 theorem at concrete inputs. -/
theorem kill_lock_and_rate_limit_witness :
    v1LifecycleMgrKill true (some true) (.ok ()) = (.internalLocked, false) ∧
    (v1LifecycleMgrKill false (some true) (.ok ())).2 = true :=
  ⟨(kill_lock_and_rate_limit (some true) (.ok ())).1,
   (kill_lock_and_rate_limit (some true) (.ok ())).2 (by decide)⟩

/-! ## Resource-pool tree (src/placement/tasks/service.go, package respool)

The Go tree holds live node objects linked by pointers together with an
`id → node` map (`t.resPools`).  The embedding separates the two: `heap` is
the set of live node objects addressed by id (node objects stay alive while
referenced, so `heap` never shrinks and parent/child references always
resolve through it), and `resPools` is the set of ids present in the tree's
map.  Node mutation (`SetChildren`, `SetResourcePoolConfig`) is an update of
the heap entry. -/

/-- `respool.ResourcePoolConfig`, restricted to the fields the tree reads:
`Name`, `Parent.GetValue()` and the scheduling policy (the policy stands in
for the remaining config payload). -/
structure ResourcePoolConfig where
  name : String
  parent : String
  policy : Nat
deriving DecidableEq, Repr

/-- Modelled from the spec: the `resPool` node object (`NewRespool`,
`SetResourcePoolConfig`, `Name`, `Parent`, `Children`, `IsLeaf` are defined
in the respool node file, which is not under src/).  Per the spec's data
model, a node holds its config, a parent reference, the ordered list of
child references, and a demand queue of gangs (represented by gang ids). -/
structure ResPool where
  id : String
  poolConfig : ResourcePoolConfig
  parent : Option String
  children : List String
  demandQueue : List Nat
deriving DecidableEq, Repr

/-- Modelled from the spec: `resPool.Name()` returns the configured name. -/
def ResPool.Name (n : ResPool) : String := n.poolConfig.name

/-- Modelled from the spec: `resPool.IsLeaf()` — a node with no children. -/
def ResPool.IsLeaf (n : ResPool) : Bool := n.children.isEmpty

/-- The live node objects, addressed by id. -/
def heapFind : List (String × ResPool) → String → Option ResPool
  | [], _ => none
  | (k, m) :: rest, id => if k = id then some m else heapFind rest id

/-- Update (or create) the node object addressed by `id`. -/
def heapSet : List (String × ResPool) → String → ResPool → List (String × ResPool)
  | [], id, n => [(id, n)]
  | (k, m) :: rest, id, n =>
    if k = id then (id, n) :: rest else (k, m) :: heapSet rest id n

/-- The `tree` state (service.go, lines 260-273): the id map `resPools`, the
root reference, and the heap of live node objects. -/
structure RTree where
  heap : List (String × ResPool)
  resPools : List String
  root : Option String
deriving DecidableEq, Repr

/-- The error kinds of the tree operations. -/
inductive TreeErr
  | notFound (what : String)
  | parentNil
  | notInitialized
deriving DecidableEq, Repr

/-- `tree.lookupResPool` (service.go, lines 556-562): the `resPools` map
lookup. -/
def lookupResPool (t : RTree) (id : String) : Option ResPool :=
  if t.resPools.contains id then heapFind t.heap id else none

/-- `tree.Get` (service.go, lines 461-466). -/
def RTree.Get (t : RTree) (id : String) : Except TreeErr ResPool :=
  match lookupResPool t id with
  | some n => .ok n
  | none => .error (.notFound id)

/-- `tree.GetAllNodes` (service.go, lines 440-452): all nodes of the
`resPools` map, restricted to leaves when `leafOnly`. -/
def RTree.GetAllNodes (t : RTree) (leafOnly : Bool) : List ResPool :=
  (t.resPools.filterMap (fun id => heapFind t.heap id)).filter
    (fun n => !leafOnly || n.IsLeaf)

/-- `tree.Upsert` (service.go, lines 501-554): rejects when the config's
parent id does not resolve; otherwise updates the existing node's config in
place (`SetResourcePoolConfig` — the node's links are not changed), or
creates a new childless node and appends it to the parent's children.  The
code performs no cycle detection (`buildTree`, line 394: "TODO: We need to
detect cycle here."). -/
def RTree.Upsert (t : RTree) (id : String) (cfg : ResourcePoolConfig) :
    Except TreeErr RTree :=
  match lookupResPool t cfg.parent with
  | none => .error (.notFound cfg.parent)
  | some parentNode =>
    match lookupResPool t id with
    | some existing =>
      .ok { t with heap := heapSet t.heap id { existing with poolConfig := cfg } }
    | none =>
      let newNode : ResPool :=
        { id := id, poolConfig := cfg, parent := some cfg.parent,
          children := [], demandQueue := [] }
      let heap1 := heapSet t.heap cfg.parent
        { parentNode with children := parentNode.children ++ [id] }
      .ok { t with
            heap := heapSet heap1 id newNode
            resPools :=
              if t.resPools.contains id then t.resPools else t.resPools ++ [id] }

/-- `tree.Delete` (service.go, lines 583-619): errors when the id does not
resolve or the node's parent is nil; otherwise unlinks the node from its
parent's children, removes the node's immediate children from the `resPools`
map, and removes the node itself.  Neither the node's children nor its
demand queue is inspected before deleting. -/
def RTree.Delete (t : RTree) (id : String) : Except TreeErr RTree :=
  match lookupResPool t id with
  | none => .error (.notFound id)
  | some node =>
    match node.parent with
    | none => .error .parentNil
    | some pid =>
      match heapFind t.heap pid with
      | none => .error .parentNil
      | some parentNode =>
        .ok { t with
              heap := heapSet t.heap pid
                { parentNode with
                  children := parentNode.children.filter (fun c => !(c == id)) }
              resPools := t.resPools.filter
                (fun x => !(x == id) && !(node.children.contains x)) }

/-- `respool.ResourcePoolPathDelimiter`. -/
def ResourcePoolPathDelimiter : String := "/"

/-- `strings.Split(s, "/")` over the character list, so that concrete paths
evaluate by kernel reduction. -/
def splitSlash : List Char → List Char → List (List Char)
  | [], acc => [acc.reverse]
  | c :: rest, acc =>
    if c = '/' then acc.reverse :: splitSlash rest []
    else splitSlash rest (c :: acc)

/-- The segment list of a resource-pool path. -/
def splitPath (s : String) : List String :=
  (splitSlash s.toList []).map (fun l => String.mk l)

/-- `tree.trimPath` (service.go, lines 493-499): strips one trailing and
then one leading delimiter. -/
def trimPath (s : String) : String :=
  let l := s.toList
  let l1 := if l.getLast? = some '/' then l.dropLast else l
  let l2 := if l1.head? = some '/' then l1.tail else l1
  String.mk l2

/-- The first child of `n` whose resolved `Name()` matches, in children
order (the loop body of `walkTree`, service.go, lines 571-578). -/
def firstNamed (t : RTree) : List String → String → Option ResPool
  | [], _ => none
  | cid :: rest, nm =>
    match heapFind t.heap cid with
    | some c => if c.Name = nm then some c else firstNamed t rest nm
    | none => firstNamed t rest nm

/-- The first matching child of a node. -/
def firstChildNamed (t : RTree) (n : ResPool) (nm : String) : Option ResPool :=
  firstNamed t n.children nm

/-- `tree.walkTree` (service.go, lines 564-581): walk the segment list from
the given root, descending into the first child whose name matches. -/
def walkTree (t : RTree) : ResPool → List String → Except TreeErr ResPool
  | node, [] => .ok node
  | node, seg :: rest =>
    match firstChildNamed t node seg with
    | some child => walkTree t child rest
    | none => .error (.notFound seg)

/-- `tree.GetByPath` (service.go, lines 468-491): `/` resolves to the root;
any other path is trimmed, split on the delimiter, and walked from the
root. -/
def RTree.GetByPath (t : RTree) (path : String) : Except TreeErr ResPool :=
  match t.root with
  | none => .error .notInitialized
  | some rid =>
    match heapFind t.heap rid with
    | none => .error .notInitialized
    | some rootN =>
      if path = ResourcePoolPathDelimiter then .ok rootN
      else walkTree t rootN (splitPath (trimPath path))

/-- The ancestor chain of a node: the nodes strictly below the root on the
way down to (and including) the node itself, obtained by following parent
references; `fuel` bounds the walk. -/
def ancestryChain (t : RTree) : Nat → String → Option (List ResPool)
  | 0, _ => none
  | fuel + 1, id =>
    match heapFind t.heap id with
    | none => none
    | some n =>
      match n.parent with
      | none => some []
      | some pid => (ancestryChain t fuel pid).map (fun l => l ++ [n])

/-- The path of a node: `/` followed by the `/`-joined names along its
ancestor chain (the root itself contributes no segment, so the root's path
is `/`). -/
def pathOf (t : RTree) (id : String) : Option String :=
  (ancestryChain t (t.heap.length + 1) id).map
    (fun l => String.mk ('/' :: List.intercalate ['/'] (l.map (fun n => n.Name.toList))))

/-- `reachChainB t start chain target`: walking from `start`, each chain
element is the first child of the previous node carrying its name, and the
chain ends at `target` (for the empty chain, `start = target`). -/
def reachChainB (t : RTree) : ResPool → List ResPool → ResPool → Bool
  | n, [], target => decide (n = target)
  | n, c :: rest, target =>
    decide (firstChildNamed t n c.Name = some c) && reachChainB t c rest target

/-! ### Heap and lookup lemmas -/

theorem heapFind_heapSet_self (h : List (String × ResPool)) (id : String) (n : ResPool) :
    heapFind (heapSet h id n) id = some n := by
  induction h with
  | nil => simp [heapSet, heapFind]
  | cons p rest ih =>
    obtain ⟨k, m⟩ := p
    by_cases hk : k = id
    · simp [heapSet, hk, heapFind]
    · simp [heapSet, hk, heapFind, ih]

theorem heapFind_heapSet_ne (h : List (String × ResPool)) (id k : String) (n : ResPool)
    (hk : k ≠ id) : heapFind (heapSet h id n) k = heapFind h k := by
  induction h with
  | nil =>
    simp only [heapSet, heapFind]
    rw [if_neg (fun he : id = k => hk he.symm)]
  | cons p rest ih =>
    obtain ⟨k2, m⟩ := p
    by_cases h2 : k2 = id
    · subst h2
      have hne : ¬ k2 = k := fun he => hk he.symm
      simp only [heapSet, if_pos rfl, heapFind, if_neg hne]
    · simp only [heapSet, if_neg h2, heapFind]
      by_cases h3 : k2 = k
      · rw [if_pos h3, if_pos h3]
      · rw [if_neg h3, if_neg h3]
        exact ih

theorem contains_iff_mem (l : List String) (a : String) :
    l.contains a = true ↔ a ∈ l := by
  induction l with
  | nil => simp
  | cons b rest ih => simp [List.contains_cons] at *

theorem lookupResPool_contains {t : RTree} {id : String} {x : ResPool}
    (h : lookupResPool t id = some x) : t.resPools.contains id = true := by
  unfold lookupResPool at h
  cases hc : t.resPools.contains id with
  | false => rw [hc] at h; simp at h
  | true => rfl

theorem lookupResPool_heapFind {t : RTree} {id : String} {x : ResPool}
    (h : lookupResPool t id = some x) : heapFind t.heap id = some x := by
  unfold lookupResPool at h
  cases hc : t.resPools.contains id with
  | false => rw [hc] at h; simp at h
  | true => rw [hc] at h; simpa using h

/-! ### C2, C4, C10: Delete and Upsert behaviour -/

theorem delete_unfold (t : RTree) (id : String) (node parentNode : ResPool) (pid : String)
    (hnode : lookupResPool t id = some node)
    (hparent : node.parent = some pid)
    (hp : heapFind t.heap pid = some parentNode) :
    t.Delete id = .ok
      { t with
        heap := heapSet t.heap pid
          { parentNode with
            children := parentNode.children.filter (fun c => !(c == id)) }
        resPools := t.resPools.filter
          (fun x => !(x == id) && !(node.children.contains x)) } := by
  unfold RTree.Delete
  simp only [hnode, hparent, hp]

/-- The state `tree.Delete` leaves behind on success: the node is unlinked
from its parent's children, and the node together with its immediate
children is removed from the `resPools` map. -/
def deleteResult (t : RTree) (id : String) (node parentNode : ResPool) (pid : String) :
    RTree :=
  { t with
    heap := heapSet t.heap pid
      { parentNode with
        children := parentNode.children.filter (fun c => !(c == id)) }
    resPools := t.resPools.filter
      (fun x => !(x == id) && !(node.children.contains x)) }

/-- C2 (amended): `tree.Delete(id)` errors only when the id does not resolve
or the node has no parent (the root); for any node with a live parent it
succeeds — regardless of the node's children or queued gangs, neither of
which is inspected — removing the node and its immediate children from the
id map and unlinking the node from its parent. -/
theorem delete_ignores_children_and_queue (t : RTree) (id : String)
    (node parentNode : ResPool) (pid : String)
    (hnode : lookupResPool t id = some node)
    (hparent : node.parent = some pid)
    (hp : heapFind t.heap pid = some parentNode) :
    t.Delete id = .ok (deleteResult t id node parentNode pid) :=
  delete_unfold t id node parentNode pid hnode hparent hp

/-- The four-level sample tree: root → A → B → C, where node A has a child
and a queued gang. -/
def rootW : ResPool :=
  { id := "root", poolConfig := ⟨"root", "", 1⟩, parent := none,
    children := ["A"], demandQueue := [] }

def nodeWA : ResPool :=
  { id := "A", poolConfig := ⟨"a", "root", 1⟩, parent := some "root",
    children := ["B"], demandQueue := [1] }

def nodeWB : ResPool :=
  { id := "B", poolConfig := ⟨"b", "A", 1⟩, parent := some "A",
    children := ["C"], demandQueue := [] }

def nodeWC : ResPool :=
  { id := "C", poolConfig := ⟨"c", "B", 1⟩, parent := some "B",
    children := [], demandQueue := [] }

def treeW : RTree :=
  { heap := [("root", rootW), ("A", nodeWA), ("B", nodeWB), ("C", nodeWC)],
    resPools := ["root", "A", "B", "C"],
    root := some "root" }

/-- Whether `tree.Delete` succeeds. -/
def deleteSucceeds (t : RTree) (id : String) : Bool :=
  match t.Delete id with
  | .ok _ => true
  | .error _ => false

/-- C2 counterexample: node A has a child (B) and a queued gang, yet
`Delete` succeeds rather than returning an error and leaving the tree
unchanged. -/
theorem delete_succeeds_despite_children_and_gangs :
    lookupResPool treeW "A" = some nodeWA ∧
    nodeWA.children = ["B"] ∧
    nodeWA.demandQueue = [1] ∧
    deleteSucceeds treeW "A" = true := by
  refine ⟨by decide, by decide, by decide, by decide⟩

/-- Witness for the amended C2 theorem: deleting the non-leaf node A of the
sample tree succeeds and produces exactly the unlink-and-remove state. -/
theorem delete_ignores_children_and_queue_witness :
    treeW.Delete "A" = .ok (deleteResult treeW "A" nodeWA rootW "root") :=
  delete_ignores_children_and_queue treeW "A" nodeWA rootW "root" rfl rfl rfl

/-- C4 (amended, first half): `tree.Upsert(id, config)` returns an error —
leaving the tree unchanged — whenever the config's parent id does not
resolve to an existing node. -/
theorem upsert_missing_parent (t : RTree) (id : String) (cfg : ResourcePoolConfig)
    (h : lookupResPool t cfg.parent = none) :
    t.Upsert id cfg = .error (.notFound cfg.parent) := by
  unfold RTree.Upsert
  rw [h]

/-- Witness for the amended C4 theorem at a concrete tree. -/
theorem upsert_missing_parent_witness :
    treeW.Upsert "X" ⟨"x", "nothere", 1⟩ = .error (.notFound "nothere") :=
  upsert_missing_parent treeW "X" ⟨"x", "nothere", 1⟩ rfl

/-- Whether `tree.Upsert` succeeds. -/
def upsertSucceeds (t : RTree) (id : String) (cfg : ResourcePoolConfig) : Bool :=
  match t.Upsert id cfg with
  | .ok _ => true
  | .error _ => false

/-- The config that re-parents A under its own child B. -/
def cfgCycleW : ResourcePoolConfig := ⟨"a", "B", 2⟩

/-- The tree after the cycle-introducing upsert. -/
def treeWCycA : RTree := ((treeW.Upsert "A" cfgCycleW).toOption).getD treeW

/-- C4 counterexample: B's config names A as its parent, and upserting A
with a config naming B as parent succeeds — no cycle detection is performed
— leaving a parent-id cycle A → B → A in the tree. -/
theorem upsert_allows_parent_cycle :
    lookupResPool treeW "B" = some nodeWB ∧
    nodeWB.poolConfig.parent = "A" ∧
    cfgCycleW.parent = "B" ∧
    upsertSucceeds treeW "A" cfgCycleW = true ∧
    (lookupResPool treeWCycA "A").map (fun n => n.poolConfig.parent) = some "B" ∧
    (lookupResPool treeWCycA "B").map (fun n => n.poolConfig.parent) = some "A" := by
  refine ⟨by decide, by decide, by decide, by decide, by decide, by decide⟩

/-- C10: after a successful `Delete` of a node, exactly the node and its
immediate children disappear from the `resPools` map, while every other id
— in particular every grandchild or deeper descendant of the deleted node —
remains, and is still returned by `Get` and listed by `GetAllNodes`, even
though its ancestors are gone. -/
theorem delete_keeps_deeper_descendants (t : RTree) (id : String)
    (node parentNode : ResPool) (pid : String) (t2 : RTree)
    (hnode : lookupResPool t id = some node)
    (hparent : node.parent = some pid)
    (hp : heapFind t.heap pid = some parentNode)
    (hpidid : parentNode.id = pid)
    (hdel : t.Delete id = .ok t2) :
    (∀ x, x ∈ t2.resPools ↔ x ∈ t.resPools ∧ x ≠ id ∧ ¬ x ∈ node.children) ∧
    (∀ g gn, heapFind t.heap g = some gn → gn.id = g →
       g ∈ t.resPools → g ≠ id → ¬ g ∈ node.children →
       (∃ m, t2.Get g = .ok m ∧ m.id = g) ∧
       (t2.GetAllNodes false).any (fun m => m.id == g) = true) := by
  rw [delete_unfold t id node parentNode pid hnode hparent hp] at hdel
  injection hdel with hdel
  subst hdel
  have hmem : ∀ x, x ∈ t.resPools.filter
      (fun x => !(x == id) && !(node.children.contains x)) ↔
      x ∈ t.resPools ∧ x ≠ id ∧ ¬ x ∈ node.children := by
    intro x
    rw [List.mem_filter]
    constructor
    · rintro ⟨h1, h2⟩
      simp only [Bool.and_eq_true, Bool.not_eq_true'] at h2
      obtain ⟨h2a, h2b⟩ := h2
      refine ⟨h1, ?_, ?_⟩
      · intro he; rw [he] at h2a; simp at h2a
      · intro hc
        rw [(contains_iff_mem node.children x).mpr hc] at h2b
        cases h2b
    · rintro ⟨h1, h2, h3⟩
      refine ⟨h1, ?_⟩
      simp only [Bool.and_eq_true, Bool.not_eq_true']
      constructor
      · simp [h2]
      · cases hc : node.children.contains x with
        | false => rfl
        | true => exact absurd ((contains_iff_mem node.children x).mp hc) h3
  constructor
  · exact hmem
  · intro g gn hgfind hgid hgmem hgne hgnc
    have hmemg : g ∈ t.resPools.filter
        (fun x => !(x == id) && !(node.children.contains x)) :=
      (hmem g).mpr ⟨hgmem, hgne, hgnc⟩
    -- the heap is modified only at the parent id
    have hfind2 : ∃ m, heapFind
        (heapSet t.heap pid
          { parentNode with
            children := parentNode.children.filter (fun c => !(c == id)) }) g =
        some m ∧ m.id = g := by
      by_cases hgp : g = pid
      · subst hgp
        refine ⟨_, heapFind_heapSet_self _ _ _, hpidid⟩
      · rw [heapFind_heapSet_ne _ _ _ _ hgp]
        exact ⟨gn, hgfind, hgid⟩
    obtain ⟨m, hm, hmid⟩ := hfind2
    constructor
    · refine ⟨m, ?_, hmid⟩
      unfold RTree.Get lookupResPool
      rw [(contains_iff_mem _ _).mpr hmemg]
      simp only [if_true]
      rw [hm]
    · unfold RTree.GetAllNodes
      rw [List.any_eq_true]
      refine ⟨m, ?_, by simp [hmid]⟩
      rw [List.mem_filter]
      constructor
      · rw [List.mem_filterMap]
        exact ⟨g, hmemg, hm⟩
      · simp

/-- The sample tree after deleting node A. -/
def treeWdelA : RTree := ((treeW.Delete "A").toOption).getD treeW

/-- Witness for C10: in the sample tree root → A → B → C, deleting A removes
A and B but grandchild C stays in the map, is returned by `Get`, and is
listed by `GetAllNodes`. -/
theorem delete_keeps_deeper_descendants_witness :
    ("C" ∈ treeWdelA.resPools ↔ "C" ∈ treeW.resPools ∧ "C" ≠ "A" ∧ ¬ "C" ∈ nodeWA.children) ∧
    ((∃ m, treeWdelA.Get "C" = .ok m ∧ m.id = "C") ∧
     (treeWdelA.GetAllNodes false).any (fun m => m.id == "C") = true) :=
  ⟨(delete_keeps_deeper_descendants treeW "A" nodeWA rootW "root" treeWdelA
      rfl rfl rfl rfl rfl).1 "C",
   (delete_keeps_deeper_descendants treeW "A" nodeWA rootW "root" treeWdelA
      rfl rfl rfl rfl rfl).2 "C" nodeWC rfl rfl (by decide) (by decide) (by decide)⟩

/-! ### C7: GetByPath -/

theorem firstNamed_name (t : RTree) :
    ∀ (cids : List String) (nm : String) (c : ResPool),
      firstNamed t cids nm = some c → c.Name = nm := by
  intro cids
  induction cids with
  | nil => intro nm c h; simp [firstNamed] at h
  | cons cid rest ih =>
    intro nm c h
    simp only [firstNamed] at h
    cases hf : heapFind t.heap cid with
    | none =>
      simp only [hf] at h
      exact ih nm c h
    | some m =>
      simp only [hf] at h
      by_cases hnm : m.Name = nm
      · rw [if_pos hnm] at h
        injection h with h2
        rw [← h2]
        exact hnm
      · rw [if_neg hnm] at h
        exact ih nm c h

theorem walkTree_of_reachChain (t : RTree) :
    ∀ (chain : List ResPool) (start target : ResPool),
      reachChainB t start chain target = true →
      walkTree t start (chain.map ResPool.Name) = .ok target := by
  intro chain
  induction chain with
  | nil =>
    intro start target h
    simp only [reachChainB, decide_eq_true_eq] at h
    subst h
    rfl
  | cons c rest ih =>
    intro start target h
    simp only [reachChainB, Bool.and_eq_true, decide_eq_true_eq] at h
    obtain ⟨hfc, hrest⟩ := h
    simp only [List.map_cons, walkTree, hfc]
    exact ih c target hrest

theorem walkTree_sound (t : RTree) :
    ∀ (segs : List String) (start target : ResPool),
      walkTree t start segs = .ok target →
      ∃ chain, reachChainB t start chain target = true ∧
        segs = chain.map ResPool.Name := by
  intro segs
  induction segs with
  | nil =>
    intro start target h
    simp only [walkTree] at h
    injection h with h2
    subst h2
    exact ⟨[], by simp [reachChainB], rfl⟩
  | cons seg rest ih =>
    intro start target h
    simp only [walkTree] at h
    cases hc : firstChildNamed t start seg with
    | none =>
      simp only [hc] at h
      exact Except.noConfusion h
    | some child =>
      simp only [hc] at h
      obtain ⟨chain, hreach, hnames⟩ := ih child target h
      have hname : child.Name = seg := firstNamed_name t start.children seg child hc
      refine ⟨child :: chain, ?_, ?_⟩
      · simp only [reachChainB, Bool.and_eq_true, decide_eq_true_eq]
        refine ⟨?_, hreach⟩
        rw [hname]
        exact hc
      · simp [hnames, hname]

theorem upsert_lookup_config {t : RTree} {id : String} {cfg : ResourcePoolConfig}
    {u : RTree} (hU : t.Upsert id cfg = .ok u) {n : ResPool}
    (hn : lookupResPool u id = some n) : n.poolConfig = cfg := by
  unfold RTree.Upsert at hU
  cases hpar : lookupResPool t cfg.parent with
  | none =>
    simp only [hpar] at hU
    exact Except.noConfusion hU
  | some parentNode =>
    simp only [hpar] at hU
    cases hid : lookupResPool t id with
    | some existing =>
      simp only [hid] at hU
      injection hU with hU
      subst hU
      unfold lookupResPool at hn
      simp only [lookupResPool_contains hid, if_true] at hn
      rw [heapFind_heapSet_self] at hn
      injection hn with hn
      rw [← hn]
    | none =>
      simp only [hid] at hU
      injection hU with hU
      subst hU
      unfold lookupResPool at hn
      cases hc : t.resPools.contains id with
      | true =>
        simp only [hc, if_true] at hn
        rw [heapFind_heapSet_self] at hn
        injection hn with hn
        rw [← hn]
      | false =>
        have hmem : id ∈ t.resPools ++ [id] :=
          List.mem_append.mpr (Or.inr (List.mem_singleton.mpr rfl))
        simp only [hc, Bool.false_eq_true, if_false,
          (contains_iff_mem (t.resPools ++ [id]) id).mpr hmem, if_true] at hn
        rw [heapFind_heapSet_self] at hn
        injection hn with hn
        rw [← hn]

/-- C7 (amended): (i) after a successful `Upsert(id, cfg)`, the node at `id`
holds `cfg`, and `GetByPath` on a path whose segments spell out a chain of
first-name matches from the root to that node returns exactly that node —
the qualification forced by the counterexample: name lookup takes the first
matching child in children order, so the path resolves to the upserted node
only when no earlier sibling shares a name along the way; (ii) `GetByPath`
of the bare delimiter returns the root node; (iii) `GetByPath` returns a
node only for the delimiter itself or for a path whose segments resolve via
first-name matches from the root — every other path fails with a not-found
error. -/
theorem upsert_getByPath_roundtrip :
    (∀ (t : RTree) (id : String) (cfg : ResourcePoolConfig) (u : RTree) (n : ResPool)
       (rid : String) (rootN : ResPool) (chain : List ResPool) (p : String),
       t.Upsert id cfg = .ok u →
       lookupResPool u id = some n →
       u.root = some rid → heapFind u.heap rid = some rootN →
       reachChainB u rootN chain n = true →
       p ≠ ResourcePoolPathDelimiter →
       splitPath (trimPath p) = chain.map ResPool.Name →
       n.poolConfig = cfg ∧ u.GetByPath p = .ok n) ∧
    (∀ (t : RTree) (rid : String) (rootN : ResPool),
       t.root = some rid → heapFind t.heap rid = some rootN →
       t.GetByPath ResourcePoolPathDelimiter = .ok rootN) ∧
    (∀ (t : RTree) (p : String) (n : ResPool),
       t.GetByPath p = .ok n →
       ∃ rid rootN, t.root = some rid ∧ heapFind t.heap rid = some rootN ∧
         (p = ResourcePoolPathDelimiter ∧ n = rootN ∨
          ∃ chain, reachChainB t rootN chain n = true ∧
            splitPath (trimPath p) = chain.map ResPool.Name)) := by
  refine ⟨?_, ?_, ?_⟩
  · intro t id cfg u n rid rootN chain p hU hn hroot hfind hreach hp hsplit
    refine ⟨upsert_lookup_config hU hn, ?_⟩
    unfold RTree.GetByPath
    simp only [hroot, hfind]
    rw [if_neg hp, hsplit]
    exact walkTree_of_reachChain u chain rootN n hreach
  · intro t rid rootN hroot hfind
    unfold RTree.GetByPath
    simp [hroot, hfind]
  · intro t p n h
    unfold RTree.GetByPath at h
    cases hroot : t.root with
    | none =>
      simp only [hroot] at h
      exact Except.noConfusion h
    | some rid =>
      simp only [hroot] at h
      cases hfind : heapFind t.heap rid with
      | none =>
        simp only [hfind] at h
        exact Except.noConfusion h
      | some rootN =>
        simp only [hfind] at h
        refine ⟨rid, rootN, rfl, hfind, ?_⟩
        by_cases hp : p = ResourcePoolPathDelimiter
        · rw [if_pos hp] at h
          injection h with h2
          exact Or.inl ⟨hp, h2.symm⟩
        · rw [if_neg hp] at h
          obtain ⟨chain, hr, hs⟩ := walkTree_sound t (splitPath (trimPath p)) rootN n h
          exact Or.inr ⟨chain, hr, hs⟩

/-- The duplicate-name tree: the root has one child A named `x`. -/
def rootD : ResPool :=
  { id := "root", poolConfig := ⟨"root", "", 1⟩, parent := none,
    children := ["A"], demandQueue := [] }

def nodeDA : ResPool :=
  { id := "A", poolConfig := ⟨"x", "root", 1⟩, parent := some "root",
    children := [], demandQueue := [] }

def treeD : RTree :=
  { heap := [("root", rootD), ("A", nodeDA)],
    resPools := ["root", "A"],
    root := some "root" }

/-- A config for a second node also named `x` under the root, with a payload
differing from A's. -/
def cfgDB : ResourcePoolConfig := ⟨"x", "root", 2⟩

/-- The duplicate-name tree after upserting B. -/
def treeDup : RTree := ((treeD.Upsert "B" cfgDB).toOption).getD treeD

/-- C7 counterexample: upserting node B named `x` under the root succeeds and
B's path is `/x`, but `GetByPath "/x"` returns the earlier sibling A — a
node with a different id holding a different config — because `walkTree`
takes the first child whose name matches. -/
theorem getByPath_returns_first_name_match :
    upsertSucceeds treeD "B" cfgDB = true ∧
    pathOf treeDup "B" = some "/x" ∧
    treeDup.GetByPath "/x" = .ok nodeDA ∧
    nodeDA.id ≠ "B" ∧
    nodeDA.poolConfig ≠ cfgDB := by
  refine ⟨by decide, by decide, rfl, by decide, by decide⟩

/-- The witness tree: a bare root. -/
def rootP : ResPool :=
  { id := "root", poolConfig := ⟨"root", "", 1⟩, parent := none,
    children := [], demandQueue := [] }

def treeP : RTree :=
  { heap := [("root", rootP)], resPools := ["root"], root := some "root" }

def cfgPA : ResourcePoolConfig := ⟨"a", "root", 1⟩

/-- The witness tree after upserting A. -/
def treePA : RTree := ((treeP.Upsert "A" cfgPA).toOption).getD treeP

/-- The node A as created by the upsert. -/
def nodePA : ResPool :=
  { id := "A", poolConfig := cfgPA, parent := some "root",
    children := [], demandQueue := [] }

/-- The root node inside the witness tree after the upsert. -/
def rootPA : ResPool := { rootP with children := ["A"] }

/-- Witness for the amended C7 theorem at a concrete upsert and paths. -/
theorem upsert_getByPath_roundtrip_witness :
    (nodePA.poolConfig = cfgPA ∧ treePA.GetByPath "/a" = .ok nodePA) ∧
    treePA.GetByPath "/" = .ok rootPA ∧
    (∃ rid rootN, treePA.root = some rid ∧ heapFind treePA.heap rid = some rootN ∧
       ("/a" = ResourcePoolPathDelimiter ∧ nodePA = rootN ∨
        ∃ chain, reachChainB treePA rootN chain nodePA = true ∧
          splitPath (trimPath "/a") = chain.map ResPool.Name)) :=
  ⟨upsert_getByPath_roundtrip.1 treeP "A" cfgPA treePA nodePA "root" rootPA [nodePA] "/a"
      rfl rfl rfl rfl (by decide) (by decide) (by decide),
   upsert_getByPath_roundtrip.2.1 treePA "root" rootPA rfl rfl,
   upsert_getByPath_roundtrip.2.2 treePA "/a" nodePA rfl⟩

end Peloton
